import Mathlib

/-!
Verification of the `locallyvalid` crate's core logic.

Conventions of the embedding:
* Rust `f64` coordinates are modelled as `ℚ`. `f64::total_cmp` is modelled by
  the linear order on `ℚ` (the embedding identifies `-0.0` with `0.0` and has
  no NaN; the geometry of the classifier only uses order comparisons and
  exact division of nonzero denominators).
* `unreachable!()` (and any other panic) is modelled by an `Option`/result
  type returning `none` (or a dedicated failure constructor).
* `u128` identifiers are modelled as `ℕ`.
-/

/-- `Visibility` (src/visibility.rs, lines 5-19): the six-variant
classification of how a 1-D interval relates to the window `[0, w)`. -/
inductive Visibility
  | Before
  | PeekingBefore (f : ℚ)
  | Inside
  | PeekingAfter (f : ℚ)
  | After
  | Straddling (f : ℚ)
deriving DecidableEq, Repr

namespace Visibility

/-- `Visibility::new(range, window)` (src/visibility.rs, lines 35-101).
`start`/`stop` are Rust's `range.start`/`range.end`; `w` is the window
length. The outer three-way split mirrors `f64::total_cmp(&start, &0.)`;
`none` models the two `unreachable!()` branches. -/
def new (start stop w : ℚ) : Option Visibility :=
  if start < 0 then
    -- Ordering::Less
    if stop ≤ 0 then some .Before
    else if stop ≤ w then some (.PeekingBefore (stop / (stop - start)))
    else some (.Straddling (w / (stop - start)))
  else if start = 0 then
    -- Ordering::Equal
    if stop < 0 then none
    else if stop = 0 then some .Before
    else if stop ≤ w then some .Inside
    else some (.PeekingAfter (w / (stop - start)))
  else if start < w then
    -- Ordering::Greater, start < window
    if stop ≤ 0 then none
    else if stop ≤ w then some .Inside
    else some (.PeekingAfter ((w - start) / (stop - start)))
  else
    -- Ordering::Greater, start >= window
    some .After

/-- `Visibility::fraction_visible` (src/visibility.rs, lines 102-112). -/
def fraction_visible : Visibility → Option ℚ
  | .Before => none
  | .After => none
  | .PeekingBefore f => some f
  | .PeekingAfter f => some f
  | .Straddling f => some f
  | .Inside => some 1

/-- `Visibility::is_visible` (src/visibility.rs, lines 113-115). -/
def is_visible (v : Visibility) : Bool :=
  (v.fraction_visible).isSome

/-- `Visibility::is_first_visible` (src/visibility.rs, lines 116-125):
true exactly for `PeekingBefore` and `Straddling`. -/
def is_first_visible : Visibility → Bool
  | .PeekingBefore _ => true
  | .Straddling _ => true
  | .Before => false
  | .Inside => false
  | .PeekingAfter _ => false
  | .After => false

end Visibility

/-- The spec's case table for the classifier (spec.md §4.5), transcribed as an
ordered case analysis in the order the cases are listed; used to compare the
code's `Visibility.new` against the specification. The guards dropped as
redundant under the ordering are noted inline. -/
def classify_spec (start stop w : ℚ) : Visibility :=
  if stop ≤ 0 then .Before
  else if start < 0 ∧ stop ≤ w then .PeekingBefore (stop / (stop - start))
    -- start < 0 < stop ≤ w (0 < stop follows from ¬ stop ≤ 0)
  else if start < 0 ∧ w < stop then .Straddling (w / (stop - start))
  else if start = 0 ∧ stop ≤ w then .Inside
    -- start = 0, 0 < stop ≤ w
  else if start = 0 ∧ w < stop then .PeekingAfter (w / (stop - start))
  else if start < w ∧ stop ≤ w then .Inside
    -- 0 < start < w (0 < start follows from the failed earlier guards)
  else if start < w ∧ w < stop then .PeekingAfter ((w - start) / (stop - start))
  else .After
    -- start ≥ w

/-- `first_visible_element(ids, elements)` (src/main.rs, lines 223-239),
shallowly embedded: the zipped `(id, element)` pairs become a list of
`(id, left, right)` triples of the card's horizontal bounding box, and the
viewport width is `w`. `none` models the `unreachable!()` branches (both the
one hit on a `PeekingAfter`/`After`/`Straddling` element and the one hit when
the scan exhausts the list); classification failure also propagates as
`none`. -/
def first_visible_element (w : ℚ) : List (ℕ × ℚ × ℚ) → Option ℕ
  | [] => none
  | (id, left, right) :: rest =>
    match Visibility.new left right w with
    | some .Before => first_visible_element w rest
    | some (.PeekingBefore _) => some id
    | some .Inside => some id
    | _ => none

/-- `Entry` (src/main.rs, lines 30-34): a claim's text plus its ordered list
of parent ids. -/
structure Entry where
  text : String
  parents : List ℕ
deriving DecidableEq, Repr

/-- `data.entries.get(&id)` (a `BTreeMap` lookup), modelled over an
association list with distinct keys. -/
def lookupEntry (entries : List (ℕ × Entry)) (id : ℕ) : Option Entry :=
  (entries.find? (fun p => p.1 == id)).map Prod.snd

/-- The derived children index (src/main.rs, lines 295-304,
`Data::from_raw`): `children[p]` collects every id whose entry lists `p`
among its parents, as read back by `data.children.get(&parent)` in
`graph_downstream`. -/
def childrenOf (entries : List (ℕ × Entry)) (p : ℕ) : List ℕ :=
  (entries.filter (fun q => q.2.parents.contains p)).map Prod.fst

/-- The recursive shape of the rendered traversal output: `missingEntry`
models the "Missing entry" placeholder, `repeated` the "Repeated" marker,
`leaf` the empty view returned when there are no parents/children to render
a row for, and `node active sub` a rendered row whose recursive sub-view
(for the currently active parent/child `active`) is `sub`. Card markup,
spacer and scroll wiring carry no recursive structure and are elided. -/
inductive GraphView
  | missingEntry
  | repeated
  | leaf
  | node (active : ℕ) (sub : GraphView)
deriving DecidableEq, Repr

/-- `graph_upstream(child, data, done)` (src/main.rs, lines 75-150): look the
id up (missing → "Missing entry"), check the `done` set (present →
"Repeated"), otherwise insert the id into `done` and recurse on the
currently active parent. The active parent is `choose child`: the code reads
it from the `current_parent` signal, which is initialized to the first
parent but may have been set to any id by a scroll event, so it is modelled
as an arbitrary function. `fuel` bounds the recursion depth; `none` models
failing to finish within `fuel` recursive calls. -/
def graph_upstream (entries : List (ℕ × Entry)) (choose : ℕ → ℕ) :
    ℕ → ℕ → Finset ℕ → Option GraphView
  | 0, _, _ => none
  | fuel + 1, child, done =>
    match lookupEntry entries child with
    | none => some .missingEntry
    | some entry =>
      if child ∈ done then some .repeated
      else
        match entry.parents.head? with
        | none => some .leaf
        | some _ =>
          (graph_upstream entries choose fuel (choose child)
            (insert child done)).map (.node (choose child))

/-- `graph_downstream(parent, data, done)` (src/main.rs, lines 151-221):
same shape, except that the `done` check precedes the entry lookup,
mirroring the code's order, and the row is built from the derived children
index. -/
def graph_downstream (entries : List (ℕ × Entry)) (choose : ℕ → ℕ) :
    ℕ → ℕ → Finset ℕ → Option GraphView
  | 0, _, _ => none
  | fuel + 1, parent, done =>
    if parent ∈ done then some .repeated
    else
      match lookupEntry entries parent with
      | none => some .missingEntry
      | some _ =>
        match (childrenOf entries parent).head? with
        | none => some .leaf
        | some _ =>
          (graph_downstream entries choose fuel (choose parent)
            (insert parent done)).map (.node (choose parent))

/-- The set of ids present in the entries map. -/
def entryIds (entries : List (ℕ × Entry)) : Finset ℕ :=
  (entries.map Prod.fst).toFinset

/-- A synthetic 3-node parent cycle A→B→C→A (ids 0→1→2→0), used as the
concrete witness for the traversal claims. -/
def entries3 : List (ℕ × Entry) :=
  [(0, ⟨"A", [1]⟩), (1, ⟨"B", [2]⟩), (2, ⟨"C", [0]⟩)]

/-- The active-parent selection for `entries3` that follows the first (only)
parent of each node. -/
def choose3 : ℕ → ℕ :=
  fun id => if id = 0 then 1 else if id = 1 then 2 else 0

/-- The three-state reentrancy lock of `double_bind` (src/leptos_ext.rs,
lines 235-240). -/
inductive Status
  | Idle
  | ReactingParent
  | ReactingChild
deriving DecidableEq, Repr

/-- The state of a `double_bind(parent, from, to)` pair: the parent cell's
value, the derived child cell's value, the shared lock, plus a ghost log of
every value written to the lock (one entry per `SharedBox::from_to` call),
so the lock's transition sequence can be stated. -/
structure BindSt (P C : Type) where
  parent : P
  child : C
  lock : Status
  trace : List Status
deriving DecidableEq, Repr

/-- Result of a subscriber callback: `ok` the resulting state, or `fail`
when the code panics (an `unreachable!()` arm, a failed `SharedBox::from_to`
assertion, or — in the fuel-bounded model — nesting deeper than the fuel
allows). -/
inductive BindRes (P C : Type)
  | ok (s : BindSt P C)
  | fail
deriving DecidableEq, Repr

/-- `SharedBox::from_to(&from, to)` (src/leptos_ext.rs, lines 41-47):
asserts the lock currently holds `a`, then writes `b` (logged in the ghost
trace); a failed assertion panics. -/
def lockFromTo {P C : Type} (a b : Status) (s : BindSt P C) : BindRes P C :=
  if s.lock = a then .ok { s with lock := b, trace := s.trace ++ [b] }
  else .fail

mutual

/-- The parent-side subscriber installed by `double_bind`
(src/leptos_ext.rs, lines 246-257), run synchronously after each parent
write past the first: on `Idle` it locks `ReactingParent`, writes
`from(value)` to the child — which synchronously runs the child-side
subscriber — and unlocks; on `ReactingParent` it is `unreachable!()`; on
`ReactingChild` it ignores the echo. `fuel` bounds notification nesting
(each accepted reaction consumes one unit before running the opposite
subscriber). -/
def parent_cb {P C : Type} (fr : P → C) (toP : C → P) (fuel : ℕ)
    (s : BindSt P C) : BindRes P C :=
  if s.lock = .ReactingChild then .ok s
  else if s.lock = .ReactingParent then .fail
  else
    match fuel with
    | 0 => .fail
    | fuel + 1 =>
      match lockFromTo .Idle .ReactingParent s with
      | .fail => .fail
      | .ok s1 =>
        match child_cb fr toP fuel { s1 with child := fr s1.parent } with
        | .fail => .fail
        | .ok s2 => lockFromTo .ReactingParent .Idle s2

/-- The child-side subscriber installed by `double_bind`
(src/leptos_ext.rs, lines 259-268), symmetric to `parent_cb`: on `Idle` it
locks `ReactingChild`, writes `to(value)` to the parent — which
synchronously runs the parent-side subscriber — and unlocks; on
`ReactingChild` it is `unreachable!()`; on `ReactingParent` it ignores the
echo. -/
def child_cb {P C : Type} (fr : P → C) (toP : C → P) (fuel : ℕ)
    (s : BindSt P C) : BindRes P C :=
  if s.lock = .ReactingParent then .ok s
  else if s.lock = .ReactingChild then .fail
  else
    match fuel with
    | 0 => .fail
    | fuel + 1 =>
      match lockFromTo .Idle .ReactingChild s with
      | .fail => .fail
      | .ok s1 =>
        match parent_cb fr toP fuel { s1 with parent := toP s1.child } with
        | .fail => .fail
        | .ok s2 => lockFromTo .ReactingChild .Idle s2

end

/-- An externally triggered write to the parent signal: the value is stored
and the parent-side subscriber runs synchronously (one unit of fuel lets the
opposite subscriber observe the echo). -/
def set_parent {P C : Type} (fr : P → C) (toP : C → P) (v : P)
    (s : BindSt P C) : BindRes P C :=
  parent_cb fr toP 1 { s with parent := v }

/-- An externally triggered write to the derived child signal, symmetric to
`set_parent`. -/
def set_child {P C : Type} (fr : P → C) (toP : C → P) (v : C)
    (s : BindSt P C) : BindRes P C :=
  child_cb fr toP 1 { s with child := v }

/-- `double_bind`'s construction (src/leptos_ext.rs, lines 242-244): the
child cell starts at `from(parent)` and the lock at `Idle`. -/
def double_bind_init {P C : Type} (fr : P → C) (p : P) : BindSt P C :=
  { parent := p, child := fr p, lock := .Idle, trace := [] }

/-- The per-subscription state of `map_window(f)` (src/leptos_ext.rs, lines
73-90): `old` is the captured last-seen *source* value, `ret` the derived
signal's current value. -/
structure MapWindowSt (A B : Type) where
  old : A
  ret : B
deriving DecidableEq, Repr

/-- `map_window`'s construction (src/leptos_ext.rs, lines 81-84): read the
current source value, invoke `f(None, current)` once to initialize the
derived signal, and capture the current value as `old`. -/
def map_window_init {A B : Type} (f : Option A → A → B) (current : A) :
    MapWindowSt A B :=
  { old := current, ret := f none current }

/-- The `for_each_after_first` subscriber installed by `map_window`
(src/leptos_ext.rs, lines 85-88): on each source notification past the first
with value `nv`, set the derived signal to `f(Some(old), nv)` and update
`old` to the seen source value. -/
def map_window_step {A B : Type} (f : Option A → A → B) (s : MapWindowSt A B)
    (nv : A) : MapWindowSt A B :=
  { old := nv, ret := f (some s.old) nv }

/-- Running `map_window` over a whole source history: construction at
`current`, then one step per subsequent notification, recording in order the
argument pair of every invocation of `f` exactly as the code passes them. -/
def map_window_run {A B : Type} (f : Option A → A → B) (current : A)
    (updates : List A) : List (Option A × A) × MapWindowSt A B :=
  updates.foldl
    (fun acc nv =>
      (acc.1 ++ [(some acc.2.old, nv)], map_window_step f acc.2 nv))
    ([(none, current)], map_window_init f current)

/-- The reactive environment of a `SignalBag` (src/leptos_ext.rs, lines
315-346): `store` gives every source cell's current value (cells named by
`ℕ`), `bag` is the ordered list of registered cells (each boxed getter
`move || signal.with(Clone::clone)` reads one cell, in registration order),
and `subs` records which cells carry the `for_each_after_first` subscription
that fires the bag's trigger. -/
structure SignalBag (A : Type) where
  store : ℕ → A
  bag : List ℕ
  subs : List ℕ

/-- `SignalBag::push(signal)` (src/leptos_ext.rs, lines 329-338): subscribe
the trigger to the signal's future changes, append the getter to the bag,
and fire the trigger once. The returned `ℕ` counts the trigger firings
caused by the push (each firing recomputes every aggregate obtained via
`map`, and it happens after the append, so the recomputation already sees
the new member). -/
def SignalBag.push {A : Type} (b : SignalBag A) (c : ℕ) : SignalBag A × ℕ :=
  ({ b with bag := b.bag ++ [c], subs := b.subs ++ [c] }, 1)

/-- An external write of value `v` to source cell `c` (`signal.set(v)`
on a bag member): the store is updated, and the bag's trigger fires once per
`for_each_after_first` subscription installed on `c` (src/leptos_ext.rs,
line 332). -/
def SignalBag.updateCell {A : Type} (b : SignalBag A) (c : ℕ) (v : A) :
    SignalBag A × ℕ :=
  ({ b with store := fun x => if x = c then v else b.store x },
    (b.subs.filter (fun x => x = c)).length)

/-- `SignalBag::map(f)` (src/leptos_ext.rs, lines 339-345): the aggregate,
recomputed each time the trigger fires by collecting the current values of
all registered sources in registration order and passing them to `f`. -/
def SignalBag.map {A B : Type} (f : List A → B) (b : SignalBag A) : B :=
  f (b.bag.map b.store)

/-- The coalescing state of one card row's scroll handler (src/main.rs,
lines 120-145 in `graph_upstream` and lines 188-207 in `graph_downstream`;
the two handlers are identical in this respect): `pending` is
`frame.borrow().is_some()` — an animation-frame callback is scheduled but
has not yet run —, `scheduled` counts the calls to
`request_animation_frame`, and `recomputes` counts runs of the frame
callback (each run recomputes the first-visible selection exactly once). -/
structure FrameSt where
  pending : Bool
  scheduled : ℕ
  recomputes : ℕ
deriving DecidableEq, Repr

/-- One scroll event (the `ev::scroll` closure): `frame.take()` — if a
callback is already pending, the existing handle is put back untouched;
otherwise `request_animation_frame` schedules a new callback and the flag
becomes set. -/
def scroll_event (s : FrameSt) : FrameSt :=
  if s.pending then s
  else { s with pending := true, scheduled := s.scheduled + 1 }

/-- The pending animation-frame callback firing: recompute the
first-visible selection once, then clear the flag (`drop(inner.take())`). -/
def frame_fire (s : FrameSt) : FrameSt :=
  { s with pending := false, recomputes := s.recomputes + 1 }

/-- Helper: the code's classifier agrees with the spec's case table whenever
`start ≤ stop`. -/
theorem new_eq_classify_spec (start stop w : ℚ) (hse : start ≤ stop) :
    Visibility.new start stop w = some (classify_spec start stop w) := by
  unfold Visibility.new classify_spec
  rcases lt_trichotomy start 0 with hs | hs | hs
  · by_cases h0 : stop ≤ 0
    · simp [hs, h0]
    · by_cases hw : stop ≤ w
      · simp [hs, h0, hw]
      · simp [hs, h0, hw, not_lt.mpr (le_of_lt (not_le.mp hw)), lt_of_not_le hw,
          lt_irrefl, not_lt.mpr hse]
  · subst hs
    by_cases h0 : stop ≤ 0
    · have h0' : stop = 0 := le_antisymm h0 hse
      simp [h0', lt_irrefl]
    · by_cases hw : stop ≤ w
      · simp [h0, hw, lt_irrefl, ne_of_gt (not_le.mp h0),
          not_lt.mp (fun h => h0 (le_of_lt h))]
      · simp [h0, hw, lt_irrefl, lt_of_not_le hw, ne_of_gt (not_le.mp h0),
          not_lt.mp (fun h => h0 (le_of_lt h))]
  · have hs' : ¬ start < 0 := not_lt.mpr (le_of_lt hs)
    have hs0 : start ≠ 0 := ne_of_gt hs
    have h0 : ¬ stop ≤ 0 := not_le.mpr (lt_of_lt_of_le hs hse)
    by_cases hsw : start < w
    · by_cases hw : stop ≤ w
      · simp [hs', hs0, hsw, h0, hw]
      · simp [hs', hs0, hsw, h0, hw, lt_of_not_le hw]
    · simp [hs', hs0, hsw, h0]

/-- Helper: `fraction_visible` is `none` exactly on `Before` and `After`. -/
theorem fraction_visible_none_iff (v : Visibility) :
    v.fraction_visible = none ↔ v = .Before ∨ v = .After := by
  cases v <;> simp [Visibility.fraction_visible]

/-- C1: for every interval `[start, stop)` with `start ≤ stop` and every
window length `w`, the code's classifier returns exactly the variant and
fraction of the spec's case table (spec.md §4.5), the cases read in the
listed order; in particular the degenerate `start = stop = 0` case yields
`Before`. -/
theorem C1_classify_matches_spec_table (start stop w : ℚ) (hse : start ≤ stop) :
    Visibility.new start stop w = some (classify_spec start stop w) :=
  new_eq_classify_spec start stop w hse

/-- Witness for C1 at a concrete input. -/
theorem C1_classify_matches_spec_table_witness :
    (-3 : ℚ) ≤ 5 ∧ Visibility.new (-3) 5 10 = some (classify_spec (-3) 5 10) :=
  ⟨by norm_num, C1_classify_matches_spec_table (-3) 5 10 (by norm_num)⟩

/-- C5: for every interval with `start ≤ stop` and every window length,
`Visibility.new` returns normally (neither `unreachable!()` branch is
reached, i.e. the result is `some` of one of the six variants), and
`fraction_visible` of the result is `none` iff the variant is `Before` or
`After` (`some 1` for `Inside`, the stored fraction for `PeekingBefore`,
`PeekingAfter` and `Straddling`). -/
theorem C5_classify_total_and_fraction (start stop w : ℚ) (hse : start ≤ stop) :
    ∃ v, Visibility.new start stop w = some v ∧
      (v.fraction_visible = none ↔ v = .Before ∨ v = .After) ∧
      Visibility.fraction_visible .Inside = some 1 ∧
      (∀ f, Visibility.fraction_visible (.PeekingBefore f) = some f) ∧
      (∀ f, Visibility.fraction_visible (.PeekingAfter f) = some f) ∧
      (∀ f, Visibility.fraction_visible (.Straddling f) = some f) :=
  ⟨classify_spec start stop w, new_eq_classify_spec start stop w hse,
    fraction_visible_none_iff _, rfl, fun _ => rfl, fun _ => rfl, fun _ => rfl⟩

/-- Witness for C5 at a concrete input. -/
theorem C5_classify_total_and_fraction_witness :
    (0 : ℚ) ≤ 1 ∧
      ∃ v, Visibility.new 0 1 2 = some v ∧
        (v.fraction_visible = none ↔ v = .Before ∨ v = .After) ∧
        Visibility.fraction_visible .Inside = some 1 ∧
        (∀ f, Visibility.fraction_visible (.PeekingBefore f) = some f) ∧
        (∀ f, Visibility.fraction_visible (.PeekingAfter f) = some f) ∧
        (∀ f, Visibility.fraction_visible (.Straddling f) = some f) :=
  ⟨by norm_num, C5_classify_total_and_fraction 0 1 2 (by norm_num)⟩

/-- C10: for every zero-width interval (`start = stop`), the classifier
returns `Before` when `start ≤ 0`, `Inside` when `0 < start < w` (so
`fraction_visible` is `some 1` even though the box has no visible extent),
and `After` when `0 < start` and `start ≥ w` — the three cases read in order,
matching the spec's general table restricted to `start = stop`. -/
theorem C10_zero_width_classification (s w : ℚ) :
    (s ≤ 0 → Visibility.new s s w = some .Before) ∧
    (0 < s → s < w →
      Visibility.new s s w = some .Inside ∧
        Visibility.fraction_visible .Inside = some 1) ∧
    (0 < s → w ≤ s → Visibility.new s s w = some .After) := by
  refine ⟨fun hs => ?_, fun hs hw => ⟨?_, rfl⟩, fun hs hw => ?_⟩
  · rcases lt_or_eq_of_le hs with hs' | hs'
    · simp [Visibility.new, hs', le_of_lt hs']
    · simp [Visibility.new, hs']
  · have h1 : ¬ s < 0 := not_lt.mpr (le_of_lt hs)
    have h2 : s ≠ 0 := ne_of_gt hs
    have h3 : ¬ s ≤ 0 := not_le.mpr hs
    simp [Visibility.new, h1, h2, h3, hw, le_of_lt hw]
  · have h1 : ¬ s < 0 := not_lt.mpr (le_of_lt hs)
    have h2 : s ≠ 0 := ne_of_gt hs
    have h4 : ¬ s < w := not_lt.mpr hw
    simp [Visibility.new, h1, h2, h4]

/-- Witness for C10 at concrete inputs (one per case). -/
theorem C10_zero_width_classification_witness :
    ((-1 : ℚ) ≤ 0 ∧ Visibility.new (-1) (-1) 5 = some .Before) ∧
    ((0 : ℚ) < 2 ∧ (2 : ℚ) < 5 ∧ Visibility.new 2 2 5 = some .Inside) ∧
    ((0 : ℚ) < 7 ∧ (5 : ℚ) ≤ 7 ∧ Visibility.new 7 7 5 = some .After) :=
  ⟨⟨by norm_num, (C10_zero_width_classification (-1) 5).1 (by norm_num)⟩,
   ⟨by norm_num, by norm_num,
     ((C10_zero_width_classification 2 5).2.1 (by norm_num) (by norm_num)).1⟩,
   ⟨by norm_num, by norm_num,
     (C10_zero_width_classification 7 5).2.2 (by norm_num) (by norm_num)⟩⟩

/-- C2 counterexample: the claim says the scan returns the first element for
which `is_first_visible()` holds or which is `Inside`; but on a single
element classified `Straddling` (for which `is_first_visible` is true, and
which is the first non-`Before` element), the code hits `unreachable!()`
(modelled `none`) instead of returning it. -/
theorem C2_first_visible_counterexample :
    Visibility.new (-1) 10 5 = some (.Straddling (5 / 11)) ∧
    Visibility.is_first_visible (.Straddling (5 / 11)) = true ∧
    first_visible_element 5 [(7, -1, 10)] = none := by
  refine ⟨?_, rfl, ?_⟩
  · norm_num [Visibility.new]
  · have h : Visibility.new (-1) 10 5 = some (.Straddling (5 / 11)) := by
      norm_num [Visibility.new]
    simp [first_visible_element, h]

/-- C2 (amended): scanning the zipped `(id, element)` pairs left to right,
`first_visible_element` skips `Before` elements and returns the first
element classified `PeekingBefore` or `Inside`; so under the precondition
that the first non-`Before` element in scan order is `PeekingBefore` or
`Inside`, that element is the one returned (any other non-`Before`
classification, or exhausting the list, hits `unreachable!()`). -/
theorem C2_first_visible_element_amended (w : ℚ) (pre : List (ℕ × ℚ × ℚ))
    (id : ℕ) (l r : ℚ) (rest : List (ℕ × ℚ × ℚ))
    (hpre : ∀ p ∈ pre, Visibility.new p.2.1 p.2.2 w = some .Before)
    (hv : Visibility.new l r w = some .Inside ∨
      ∃ f, Visibility.new l r w = some (.PeekingBefore f)) :
    first_visible_element w (pre ++ (id, l, r) :: rest) = some id := by
  induction pre with
  | nil =>
    rcases hv with h | ⟨f, h⟩ <;> simp [first_visible_element, h]
  | cons p ps ih =>
    have hp : Visibility.new p.2.1 p.2.2 w = some .Before :=
      hpre p (List.mem_cons_self p ps)
    have ih' := ih fun q hq => hpre q (List.mem_cons_of_mem p hq)
    rcases p with ⟨pid, pl, pr⟩
    simpa [first_visible_element, hp] using ih'

/-- Witness for the amended C2 at a concrete input: one `Before` card
followed by a `PeekingBefore` card; the latter is returned. -/
theorem C2_first_visible_element_amended_witness :
    (∀ p ∈ [((1 : ℕ), (-10 : ℚ), (-2 : ℚ))],
      Visibility.new p.2.1 p.2.2 5 = some .Before) ∧
    (Visibility.new (-1) 3 5 = some .Inside ∨
      ∃ f, Visibility.new (-1) 3 5 = some (.PeekingBefore f)) ∧
    first_visible_element 5 ([((1 : ℕ), (-10 : ℚ), (-2 : ℚ))] ++
      (7, -1, 3) :: []) = some 7 := by
  have h1 : ∀ p ∈ [((1 : ℕ), (-10 : ℚ), (-2 : ℚ))],
      Visibility.new p.2.1 p.2.2 5 = some .Before := by
    intro p hp
    simp only [List.mem_singleton] at hp
    subst hp
    norm_num [Visibility.new]
  have h2 : Visibility.new (-1) 3 5 = some .Inside ∨
      ∃ f, Visibility.new (-1) 3 5 = some (.PeekingBefore f) := by
    right
    exact ⟨3 / 4, by norm_num [Visibility.new]⟩
  exact ⟨h1, h2, C2_first_visible_element_amended 5 _ 7 (-1) 3 [] h1 h2⟩

/-- Helper: a successful entry lookup means the id is among the entry ids. -/
theorem lookupEntry_mem_entryIds (entries : List (ℕ × Entry)) (id : ℕ)
    (e : Entry) (h : lookupEntry entries id = some e) : id ∈ entryIds entries := by
  unfold lookupEntry at h
  rcases Option.map_eq_some'.mp h with ⟨p, hp, _⟩
  have hmem : p ∈ entries := List.mem_of_find?_eq_some hp
  have hpred : p.1 = id := by simpa using List.find?_some hp
  subst hpred
  simp only [entryIds, List.mem_toFinset]
  exact List.mem_map_of_mem Prod.fst hmem

/-- Helper: the `done` set shrinks the measure when an undone, present id is
inserted. -/
theorem card_sdiff_insert_lt (s done : Finset ℕ) (a : ℕ)
    (ha : a ∈ s) (hd : a ∉ done) :
    (s \ insert a done).card < (s \ done).card := by
  have h1 : a ∈ s \ done := Finset.mem_sdiff.mpr ⟨ha, hd⟩
  have h2 : s \ insert a done = (s \ done).erase a := by
    ext x
    simp only [Finset.mem_sdiff, Finset.mem_insert, Finset.mem_erase]
    tauto
  rw [h2, Finset.card_erase_of_mem h1]
  have hpos : 0 < (s \ done).card := Finset.card_pos.mpr ⟨a, h1⟩
  omega

/-- Helper: `graph_upstream` yields a result whenever the fuel exceeds the
number of not-yet-done entries. -/
theorem graph_upstream_isSome (entries : List (ℕ × Entry)) (choose : ℕ → ℕ) :
    ∀ fuel done child, (entryIds entries \ done).card < fuel →
      (graph_upstream entries choose fuel child done).isSome := by
  intro fuel
  induction fuel with
  | zero => intro done child h; exact absurd h (Nat.not_lt_zero _)
  | succ n ih =>
    intro done child h
    rw [graph_upstream]
    cases hlk : lookupEntry entries child with
    | none => simp
    | some entry =>
      by_cases hd : child ∈ done
      · simp [hd]
      · cases hp : entry.parents.head? with
        | none => simp [hd, hp]
        | some p =>
          have hmem := lookupEntry_mem_entryIds entries child entry hlk
          have hlt : (entryIds entries \ insert child done).card < n := by
            have := card_sdiff_insert_lt (entryIds entries) done child hmem hd
            omega
          simp only [hd, ite_false, hp, Option.isSome_map']
          exact ih (insert child done) (choose child) hlt

/-- Helper: `graph_downstream` yields a result whenever the fuel exceeds the
number of not-yet-done entries. -/
theorem graph_downstream_isSome (entries : List (ℕ × Entry)) (choose : ℕ → ℕ) :
    ∀ fuel done parent, (entryIds entries \ done).card < fuel →
      (graph_downstream entries choose fuel parent done).isSome := by
  intro fuel
  induction fuel with
  | zero => intro done parent h; exact absurd h (Nat.not_lt_zero _)
  | succ n ih =>
    intro done parent h
    rw [graph_downstream]
    by_cases hd : parent ∈ done
    · simp [hd]
    · cases hlk : lookupEntry entries parent with
      | none => simp [hd]
      | some entry =>
        cases hp : (childrenOf entries parent).head? with
        | none => simp [hd, hlk, hp]
        | some c =>
          have hmem := lookupEntry_mem_entryIds entries parent entry hlk
          have hlt : (entryIds entries \ insert parent done).card < n := by
            have := card_sdiff_insert_lt (entryIds entries) done parent hmem hd
            omega
          simp only [hd, ite_false, hlk, hp, Option.isSome_map']
          exact ih (insert parent done) (choose parent) hlt

/-- Helper: the distinct entry ids are at most the number of entries. -/
theorem card_entryIds_le (entries : List (ℕ × Entry)) :
    (entryIds entries).card ≤ entries.length := by
  calc (entryIds entries).card ≤ (entries.map Prod.fst).length :=
        List.toFinset_card_le _
    _ = entries.length := List.length_map _ _

/-- C9: both traversals terminate for every data snapshot, every starting id
and every active-parent/child selection — with fuel `entries.length + 1`
(recursion depth bounded by the number of entries) they yield a result, even
on cyclic parent graphs; an id already in the `done` set renders the
"Repeated" marker and stops recursing (for `graph_upstream` once its entry
is found, for `graph_downstream` unconditionally); and a missing entry
renders the "Missing entry" placeholder and stops. -/
theorem C9_graph_traversal_terminates (entries : List (ℕ × Entry))
    (choose : ℕ → ℕ) (start : ℕ) :
    ((graph_upstream entries choose (entries.length + 1) start ∅).isSome ∧
      (graph_downstream entries choose (entries.length + 1) start ∅).isSome) ∧
    (∀ fuel child done, lookupEntry entries child = none →
      graph_upstream entries choose (fuel + 1) child done = some .missingEntry) ∧
    (∀ fuel child done entry, lookupEntry entries child = some entry →
      child ∈ done →
      graph_upstream entries choose (fuel + 1) child done = some .repeated) ∧
    (∀ fuel parent done, parent ∈ done →
      graph_downstream entries choose (fuel + 1) parent done = some .repeated) ∧
    (∀ fuel parent done, parent ∉ done → lookupEntry entries parent = none →
      graph_downstream entries choose (fuel + 1) parent done =
        some .missingEntry) := by
  refine ⟨⟨?_, ?_⟩, ?_, ?_, ?_, ?_⟩
  · apply graph_upstream_isSome
    have h1 : (entryIds entries \ ∅).card ≤ entries.length := by
      rw [Finset.sdiff_empty]
      exact card_entryIds_le entries
    omega
  · apply graph_downstream_isSome
    have h1 : (entryIds entries \ ∅).card ≤ entries.length := by
      rw [Finset.sdiff_empty]
      exact card_entryIds_le entries
    omega
  · intro fuel child done hlk
    rw [graph_upstream, hlk]
  · intro fuel child done entry hlk hd
    rw [graph_upstream, hlk]
    simp [hd]
  · intro fuel parent done hd
    rw [graph_downstream]
    simp [hd]
  · intro fuel parent done hd hlk
    rw [graph_downstream, hlk]
    simp [hd]

/-- Witness for C9 on the synthetic 3-node cycle A→B→C→A: the traversal from
node A terminates (and in fact renders the cycle with a final "Repeated"
marker), a missing id renders the placeholder, and a done id renders
"Repeated". -/
theorem C9_graph_traversal_terminates_witness :
    ((graph_upstream entries3 choose3 (entries3.length + 1) 0 ∅).isSome ∧
      (graph_downstream entries3 choose3 (entries3.length + 1) 0 ∅).isSome) ∧
    graph_upstream entries3 choose3 1 5 ∅ = some .missingEntry ∧
    graph_upstream entries3 choose3 1 0 {0} = some .repeated ∧
    graph_downstream entries3 choose3 1 0 {0} = some .repeated ∧
    graph_downstream entries3 choose3 1 5 ∅ = some .missingEntry ∧
    graph_upstream entries3 choose3 (entries3.length + 1) 0 ∅ =
      some (.node 1 (.node 2 (.node 0 .repeated))) := by
  have h := C9_graph_traversal_terminates entries3 choose3 0
  refine ⟨h.1, ?_, ?_, ?_, ?_, ?_⟩
  · exact h.2.1 0 5 ∅ (by decide)
  · exact h.2.2.1 0 0 {0} ⟨"A", [1]⟩ (by decide) (by decide)
  · exact h.2.2.2.1 0 0 {0} (by decide)
  · exact h.2.2.2.2 0 5 ∅ (by decide) (by decide)
  · decide

/-- Helper: an externally triggered parent write from an `Idle` lock runs to
completion: the child is recomputed, the echo is suppressed, and the lock
returns to `Idle`. -/
theorem set_parent_idle_eq {P C : Type} (fr : P → C) (toP : C → P)
    (s : BindSt P C) (h : s.lock = .Idle) (v : P) :
    set_parent fr toP v s = .ok (BindSt.mk v (fr v) Status.Idle
      (s.trace ++ [Status.ReactingParent, Status.Idle])) := by
  rw [set_parent, parent_cb.eq_def]
  simp [h, lockFromTo]
  rw [child_cb.eq_def]
  simp [h, lockFromTo]

/-- Helper: an externally triggered child write from an `Idle` lock runs to
completion: the parent is recomputed, the echo is suppressed, and the lock
returns to `Idle`. -/
theorem set_child_idle_eq {P C : Type} (fr : P → C) (toP : C → P)
    (s : BindSt P C) (h : s.lock = .Idle) (v : C) :
    set_child fr toP v s = .ok (BindSt.mk (toP v) v Status.Idle
      (s.trace ++ [Status.ReactingChild, Status.Idle])) := by
  rw [set_child, child_cb.eq_def]
  simp [h, lockFromTo]
  rw [parent_cb.eq_def]
  simp [h, lockFromTo]

/-- C4: the `double_bind` lock state machine — (a) a notification arriving
while the lock is held in the opposite direction performs no write to either
cell and leaves the lock (and whole state) unchanged; (b) an accepted
reaction from `Idle` transitions the lock `Idle → ReactingParent → Idle`
(resp. `Idle → ReactingChild → Idle`), as the ghost trace records, so the
lock is `Idle` again once the reaction is finished; (c) a notification
arriving while the lock is held in the same direction hits `unreachable!()`
(a fatal failure, never a silently swallowed case). -/
theorem C4_binding_lock_state_machine {P C : Type} (fr : P → C) (toP : C → P)
    (s : BindSt P C) (fuel : ℕ) :
    (s.lock = .ReactingChild → parent_cb fr toP fuel s = .ok s) ∧
    (s.lock = .ReactingParent → child_cb fr toP fuel s = .ok s) ∧
    (s.lock = .ReactingParent → parent_cb fr toP fuel s = .fail) ∧
    (s.lock = .ReactingChild → child_cb fr toP fuel s = .fail) ∧
    (∀ v : P, s.lock = .Idle → ∃ s', set_parent fr toP v s = .ok s' ∧
      s'.lock = .Idle ∧ s'.trace = s.trace ++ [.ReactingParent, .Idle] ∧
      s'.parent = v ∧ s'.child = fr v) ∧
    (∀ v : C, s.lock = .Idle → ∃ s', set_child fr toP v s = .ok s' ∧
      s'.lock = .Idle ∧ s'.trace = s.trace ++ [.ReactingChild, .Idle] ∧
      s'.child = v ∧ s'.parent = toP v) := by
  refine ⟨fun h => ?_, fun h => ?_, fun h => ?_, fun h => ?_,
    fun v h => ?_, fun v h => ?_⟩
  · rw [parent_cb.eq_def]
    simp [h]
  · rw [child_cb.eq_def]
    simp [h]
  · rw [parent_cb.eq_def]
    simp [h]
  · rw [child_cb.eq_def]
    simp [h]
  · exact ⟨BindSt.mk v (fr v) Status.Idle
      (s.trace ++ [Status.ReactingParent, Status.Idle]),
      set_parent_idle_eq fr toP s h v, rfl, rfl, rfl, rfl⟩
  · exact ⟨BindSt.mk (toP v) v Status.Idle
      (s.trace ++ [Status.ReactingChild, Status.Idle]),
      set_child_idle_eq fr toP s h v, rfl, rfl, rfl, rfl⟩

/-- Witness for C4 at concrete states (one per lock value), with the doubling
conversion pair of spec.md §8. -/
theorem C4_binding_lock_state_machine_witness :
    (parent_cb (fun x : ℤ => x * 2) (fun y : ℤ => y / 2) 1
        (BindSt.mk 3 6 Status.ReactingChild []) =
      .ok (BindSt.mk 3 6 Status.ReactingChild [])) ∧
    (child_cb (fun x : ℤ => x * 2) (fun y : ℤ => y / 2) 1
        (BindSt.mk 3 6 Status.ReactingParent []) =
      .ok (BindSt.mk 3 6 Status.ReactingParent [])) ∧
    (parent_cb (fun x : ℤ => x * 2) (fun y : ℤ => y / 2) 1
        (BindSt.mk 3 6 Status.ReactingParent []) = .fail) ∧
    (child_cb (fun x : ℤ => x * 2) (fun y : ℤ => y / 2) 1
        (BindSt.mk 3 6 Status.ReactingChild []) = .fail) ∧
    (∃ s', set_parent (fun x : ℤ => x * 2) (fun y : ℤ => y / 2) 4
        (BindSt.mk 3 6 Status.Idle []) = .ok s' ∧ s'.lock = Status.Idle ∧
      s'.trace = ([] : List Status) ++ [Status.ReactingParent, Status.Idle] ∧
      s'.parent = 4 ∧ s'.child = (fun x : ℤ => x * 2) 4) ∧
    (∃ s', set_child (fun x : ℤ => x * 2) (fun y : ℤ => y / 2) 10
        (BindSt.mk 3 6 Status.Idle []) = .ok s' ∧ s'.lock = Status.Idle ∧
      s'.trace = ([] : List Status) ++ [Status.ReactingChild, Status.Idle] ∧
      s'.child = 10 ∧ s'.parent = (fun y : ℤ => y / 2) 10) :=
  ⟨(C4_binding_lock_state_machine _ _ _ 1).1 rfl,
   (C4_binding_lock_state_machine _ _ _ 1).2.1 rfl,
   (C4_binding_lock_state_machine _ _ _ 1).2.2.1 rfl,
   (C4_binding_lock_state_machine _ _ _ 1).2.2.2.1 rfl,
   (C4_binding_lock_state_machine _ _ _ 1).2.2.2.2.1 4 rfl,
   (C4_binding_lock_state_machine _ _ _ 1).2.2.2.2.2 10 rfl⟩

/-- C3 counterexample: with the integer conversion pair of spec.md §8
(`to_child = |x| x*2`, `to_parent = |y| y/2`) starting at parent 3, an
external child write of 9 settles at parent 4, child 9 — and
`child ≠ to_child(parent)` since `4 * 2 = 8 ≠ 9`: the propagation writes
the parent and suppresses the echo, so the sides agree only when the
conversion pair round-trips on the written value, contrary to the claim. -/
theorem C3_double_bind_agreement_counterexample :
    set_child (fun x : ℤ => x * 2) (fun y : ℤ => y / 2) 9
        (double_bind_init (fun x : ℤ => x * 2) 3) =
      .ok (BindSt.mk 4 9 Status.Idle [Status.ReactingChild, Status.Idle]) ∧
    ¬ (BindSt.mk (4 : ℤ) (9 : ℤ) Status.Idle
        [Status.ReactingChild, Status.Idle]).child =
      (fun x : ℤ => x * 2) (BindSt.mk (4 : ℤ) (9 : ℤ) Status.Idle
        [Status.ReactingChild, Status.Idle]).parent := by
  constructor
  · decide
  · decide

/-- C3 (amended): after an externally triggered *parent* change and its
synchronous propagation settles, the two sides agree
(`child = to_child(parent)`); after an externally triggered *child* change,
the parent is updated (`parent = to_parent(child)`) but the sides agree if
and only if the conversion pair round-trips on the written value
(`to_child(to_parent(v)) = v`) — round-trip exactness IS required for
child-side agreement. In both directions propagation settles with the lock
back at `Idle` and no infinite loop. -/
theorem C3_double_bind_amended {P C : Type} (fr : P → C) (toP : C → P)
    (s : BindSt P C) (h : s.lock = Status.Idle) :
    (∀ v : P, ∃ s', set_parent fr toP v s = .ok s' ∧ s'.parent = v ∧
      s'.child = fr s'.parent ∧ s'.lock = Status.Idle) ∧
    (∀ v : C, ∃ s', set_child fr toP v s = .ok s' ∧ s'.child = v ∧
      s'.parent = toP v ∧ s'.lock = Status.Idle ∧
      (s'.child = fr s'.parent ↔ fr (toP v) = v)) := by
  constructor
  · intro v
    exact ⟨_, set_parent_idle_eq fr toP s h v, rfl, rfl, rfl⟩
  · intro v
    refine ⟨_, set_child_idle_eq fr toP s h v, rfl, rfl, rfl, ?_⟩
    exact eq_comm

/-- Witness for the amended C3, reproducing spec.md §8's round-trip example:
parent set to 4 yields child 8; child set to 10 yields parent 5 and the
sides agree there because `(10/2)*2 = 10`. -/
theorem C3_double_bind_amended_witness :
    ((double_bind_init (fun x : ℤ => x * 2) 3).lock = Status.Idle) ∧
    (∃ s', set_parent (fun x : ℤ => x * 2) (fun y : ℤ => y / 2) 4
        (double_bind_init (fun x : ℤ => x * 2) 3) = .ok s' ∧ s'.parent = 4 ∧
      s'.child = (fun x : ℤ => x * 2) s'.parent ∧ s'.lock = Status.Idle) ∧
    (∃ s', set_child (fun x : ℤ => x * 2) (fun y : ℤ => y / 2) 10
        (double_bind_init (fun x : ℤ => x * 2) 3) = .ok s' ∧ s'.child = 10 ∧
      s'.parent = (fun y : ℤ => y / 2) 10 ∧ s'.lock = Status.Idle ∧
      (s'.child = (fun x : ℤ => x * 2) s'.parent ↔
        (fun x : ℤ => x * 2) ((fun y : ℤ => y / 2) 10) = 10)) :=
  ⟨rfl,
   (C3_double_bind_amended (fun x : ℤ => x * 2) (fun y : ℤ => y / 2)
     (double_bind_init (fun x : ℤ => x * 2) 3) rfl).1 4,
   (C3_double_bind_amended (fun x : ℤ => x * 2) (fun y : ℤ => y / 2)
     (double_bind_init (fun x : ℤ => x * 2) 3) rfl).2 10⟩

/-- Helper: the recorded `f`-invocation arguments of `map_window` over any
source history pair each notification with the previous *source* value. -/
theorem map_window_run_calls_aux {A B : Type} (f : Option A → A → B) :
    ∀ (updates : List A) (tr : List (Option A × A)) (s : MapWindowSt A B),
      (updates.foldl
        (fun acc nv =>
          (acc.1 ++ [(some acc.2.old, nv)], map_window_step f acc.2 nv))
        (tr, s)).1 =
        tr ++ List.zipWith (fun a b => (some a, b)) (s.old :: updates) updates := by
  intro updates
  induction updates with
  | nil => intro tr s; simp
  | cons u us ih =>
    intro tr s
    rw [List.foldl_cons, ih]
    simp [map_window_step]

/-- C6: `map_window(f)` invokes `f(None, current)` exactly once at
construction to produce the derived signal's initial value, and on every
subsequent source notification invokes `f(Some(last_seen_source_value),
new_value)` — the previous argument is the last-seen source value; for the
source sequence `[5, 5, 7]` the reducer is invoked with `(None, 5)`,
`(Some 5, 5)`, `(Some 5, 7)` in that order. -/
theorem C6_map_window_reducer_contract {A B : Type} (f : Option A → A → B)
    (current : A) (updates : List A) :
    (map_window_init f current).ret = f none current ∧
    (map_window_run f current updates).1 =
      (none, current) ::
        List.zipWith (fun a b => (some a, b)) (current :: updates) updates ∧
    (map_window_run (fun p c => (p, c)) (5 : ℕ) [5, 7]).1 =
      [(none, 5), (some 5, 5), (some 5, 7)] := by
  refine ⟨rfl, ?_, by decide⟩
  unfold map_window_run
  rw [map_window_run_calls_aux]
  simp [map_window_init]

/-- Helper: filtering a list with no occurrence of `c` for `c` is empty. -/
theorem filter_eq_nil_of_not_mem {c : ℕ} {l : List ℕ} (h : c ∉ l) :
    l.filter (fun x => x = c) = [] := by
  induction l with
  | nil => rfl
  | cons a as ih =>
    have ha : a ≠ c := fun hac => h (hac ▸ List.mem_cons_self a as)
    have has : c ∉ as := fun hc => h (List.mem_cons_of_mem a hc)
    simp [List.filter_cons, ha, ih has]

/-- C7: `SignalBag::push(s)` fires the bag's trigger exactly once
immediately (one recomputation of every aggregate obtained via `map`), and
the aggregate recomputed at that firing already includes `s`'s
contribution, appended in registration order; the push also subscribes the
trigger to all future changes of `s`, so a later write to `s` fires the
trigger exactly once more and the aggregate is recomputed from the current
values of all registered sources, in registration order. The precondition
`c ∉ b.subs` says the signal was not already registered. -/
theorem C7_signal_bag_push_map {A B : Type} (f : List A → B) (b : SignalBag A)
    (c : ℕ) (v : A) (hnew : c ∉ b.subs) :
    (b.push c).2 = 1 ∧
    SignalBag.map f (b.push c).1 = f ((b.bag.map b.store) ++ [b.store c]) ∧
    (((b.push c).1).updateCell c v).2 = 1 ∧
    SignalBag.map f (((b.push c).1).updateCell c v).1 =
      f ((b.bag.map fun x => if x = c then v else b.store x) ++ [v]) := by
  refine ⟨rfl, ?_, ?_, ?_⟩
  · simp [SignalBag.push, SignalBag.map]
  · simp [SignalBag.push, SignalBag.updateCell, List.filter_append,
      filter_eq_nil_of_not_mem hnew]
  · simp [SignalBag.push, SignalBag.updateCell, SignalBag.map]

/-- Witness for C7 at a concrete bag: one registered cell `0` with value 1,
pushing cell `1` (value 2), then writing 9 to cell `1`. -/
theorem C7_signal_bag_push_map_witness :
    (1 : ℕ) ∉ ((SignalBag.mk (fun x => x + 1) [0] [0] : SignalBag ℕ)).subs ∧
    ((SignalBag.mk (fun x => x + 1) [0] [0] : SignalBag ℕ).push 1).2 = 1 ∧
    SignalBag.map (fun l => l)
      ((SignalBag.mk (fun x => x + 1) [0] [0] : SignalBag ℕ).push 1).1 =
      (([0].map (fun x : ℕ => x + 1)) ++ [(1 : ℕ) + 1]) ∧
    ((((SignalBag.mk (fun x => x + 1) [0] [0] : SignalBag ℕ).push 1).1
        ).updateCell 1 9).2 = 1 ∧
    SignalBag.map (fun l => l)
      ((((SignalBag.mk (fun x => x + 1) [0] [0] : SignalBag ℕ).push 1).1
        ).updateCell 1 9).1 =
      (([0].map fun x : ℕ => if x = 1 then 9 else x + 1) ++ [9]) := by
  have hnew : (1 : ℕ) ∉ ([0] : List ℕ) := by decide
  have h := C7_signal_bag_push_map (fun l : List ℕ => l)
    (SignalBag.mk (fun x => x + 1) [0] [0]) 1 9 hnew
  exact ⟨hnew, h.1, h.2.1, h.2.2.1, h.2.2.2⟩

/-- C8: starting from a row whose scroll handler has no pending
animation-frame callback, any positive number `n` of scroll events within
one frame schedules exactly one callback (the pending flag is set by the
first event and every later event leaves the state untouched — never a
second callback), and the frame firing then performs exactly one
recomputation of the first-visible selection, clearing the flag. -/
theorem C8_scroll_coalescing (s : FrameSt) (h : s.pending = false)
    (n : ℕ) (hn : 1 ≤ n) :
    scroll_event^[n] s =
      { s with pending := true, scheduled := s.scheduled + 1 } ∧
    frame_fire (scroll_event^[n] s) =
      { pending := false, scheduled := s.scheduled + 1,
        recomputes := s.recomputes + 1 } ∧
    (∀ t : FrameSt, t.pending = true → scroll_event t = t) := by
  have hstep : ∀ t : FrameSt, t.pending = true → scroll_event t = t := by
    intro t ht
    simp [scroll_event, ht]
  have hiter : scroll_event^[n] s =
      { s with pending := true, scheduled := s.scheduled + 1 } := by
    induction n with
    | zero => omega
    | succ m ih =>
      rcases Nat.eq_or_lt_of_le hn with h1 | h1
      · have hm : m = 0 := by omega
        subst hm
        simp [scroll_event, h]
      · have hm : 1 ≤ m := by omega
        rw [Function.iterate_succ_apply', ih hm]
        exact hstep _ rfl
  refine ⟨hiter, ?_, hstep⟩
  rw [hiter]
  rfl

/-- Witness for C8: three scroll events then the frame, from an idle row. -/
theorem C8_scroll_coalescing_witness :
    (FrameSt.mk false 0 0).pending = false ∧ 1 ≤ 3 ∧
    scroll_event^[3] (FrameSt.mk false 0 0) = FrameSt.mk true 1 0 ∧
    frame_fire (scroll_event^[3] (FrameSt.mk false 0 0)) =
      FrameSt.mk false 1 1 := by
  have h := C8_scroll_coalescing (FrameSt.mk false 0 0) rfl 3 (by omega)
  exact ⟨rfl, by omega, h.1, h.2.1⟩
